import Mathlib

/-!
Verification of the deploy orchestrator of `packages/core/src/core/deploy/deploy_actions.ts`.

The development shallowly embeds the data model and the operations of that file:
`deployOrValidate`, `deployAction`, `updatePlanElement` and `deployActions` are
translated from the source; the collaborators that live outside the shown sources
(the structural diff and patch of adapter-utils, and the DAG walker of the dag
package) are modelled from the specification, as marked on their doc comments.
-/

/-! ## Field maps and structural diff / patch

Modelled from the spec: `detailedCompare` and `applyDetailedChanges` come from the
adapter-utils package, which is not part of the shown sources.  The spec describes
them as computing a structural diff from a base element to a target element and
applying that diff onto the base in place.  An element value is modelled as an
association list from field names to numeric field values; the diff is a list of
per-field detailed changes (add / remove / modify). -/

abbrev FieldMap := List (String × Nat)

def lookupField (v : FieldMap) (k : String) : Option Nat :=
  match v with
  | [] => none
  | p :: rest => if p.1 = k then some p.2 else lookupField rest k

inductive DetailedChange where
  | add (key : String) (after : Nat)
  | remove (key : String)
  | modify (key : String) (after : Nat)
deriving DecidableEq, Repr

def DetailedChange.key : DetailedChange → String
  | .add k _ => k
  | .remove k => k
  | .modify k _ => k

/-- Modelled from the spec: one field-level entry of the structural diff between a
base value and a target value. -/
def compareField (base target : FieldMap) (k : String) : Option DetailedChange :=
  match lookupField base k, lookupField target k with
  | some _, none => some (.remove k)
  | some bv, some tv => if bv = tv then none else some (.modify k tv)
  | none, some tv => some (.add k tv)
  | none, none => none

/-- Modelled from the spec: the structural diff from `base` to `target`
(adapter-utils `detailedCompare`). -/
def detailedCompare (base target : FieldMap) : List DetailedChange :=
  ((base.map Prod.fst ++ target.map Prod.fst).dedup).filterMap (compareField base target)

def removeField (v : FieldMap) (k : String) : FieldMap :=
  match v with
  | [] => []
  | p :: rest => if p.1 = k then removeField rest k else p :: removeField rest k

def modifyField (v : FieldMap) (k : String) (n : Nat) : FieldMap :=
  match v with
  | [] => []
  | p :: rest => (if p.1 = k then (k, n) else p) :: modifyField rest k n

def applyDetailedChange (v : FieldMap) : DetailedChange → FieldMap
  | .remove k => removeField v k
  | .modify k n => modifyField v k n
  | .add k n => v ++ [(k, n)]

/-- Modelled from the spec: applying a structural diff onto a base value
(adapter-utils `applyDetailedChanges`). -/
def applyDetailedChanges (v : FieldMap) (changes : List DetailedChange) : FieldMap :=
  changes.foldl applyDetailedChange v

theorem lookupField_append (v w : FieldMap) (k : String) :
    lookupField (v ++ w) k =
      match lookupField v k with
      | some n => some n
      | none => lookupField w k := by
  induction v with
  | nil => simp [lookupField]
  | cons p rest ih =>
    by_cases h : p.1 = k <;> simp [lookupField, h, ih]

theorem lookupField_applyDetailedChange_ne (v : FieldMap) (dc : DetailedChange) (k : String)
    (h : dc.key ≠ k) : lookupField (applyDetailedChange v dc) k = lookupField v k := by
  cases dc with
  | add k' n =>
    simp only [DetailedChange.key] at h
    rw [applyDetailedChange, lookupField_append]
    have : lookupField [(k', n)] k = none := by simp [lookupField, h]
    rw [this]
    cases lookupField v k <;> rfl
  | remove k' =>
    simp only [DetailedChange.key] at h
    rw [applyDetailedChange]
    induction v with
    | nil => rfl
    | cons p rest ih =>
      by_cases hk' : p.1 = k'
      · have hp : p.1 ≠ k := by rw [hk']; exact h
        simp [removeField, lookupField, hk', hp, h, Ne.symm h, ih]
      · by_cases hp : p.1 = k <;>
          simp [removeField, lookupField, hk', hp, h, Ne.symm h, ih]
  | modify k' n =>
    simp only [DetailedChange.key] at h
    rw [applyDetailedChange]
    induction v with
    | nil => rfl
    | cons p rest ih =>
      by_cases hk' : p.1 = k'
      · have hp : p.1 ≠ k := by rw [hk']; exact h
        simp [modifyField, lookupField, hk', hp, h, Ne.symm h, ih]
      · by_cases hp : p.1 = k <;>
          simp [modifyField, lookupField, hk', hp, h, Ne.symm h, ih]

theorem lookupField_applyMany_ne (v : FieldMap) (dcs : List DetailedChange) (k : String)
    (h : ∀ dc ∈ dcs, dc.key ≠ k) :
    lookupField (applyDetailedChanges v dcs) k = lookupField v k := by
  induction dcs generalizing v with
  | nil => rfl
  | cons dc rest ih =>
    rw [applyDetailedChanges, List.foldl_cons]
    rw [show List.foldl applyDetailedChange (applyDetailedChange v dc) rest =
      applyDetailedChanges (applyDetailedChange v dc) rest from rfl]
    rw [ih _ fun d hd => h d (List.mem_cons_of_mem _ hd)]
    exact lookupField_applyDetailedChange_ne v dc k (h dc (List.mem_cons_self _ _))

theorem lookupField_remove_eq (v : FieldMap) (k : String) :
    lookupField (applyDetailedChange v (.remove k)) k = none := by
  rw [applyDetailedChange]
  induction v with
  | nil => rfl
  | cons p rest ih =>
    by_cases hp : p.1 = k <;> simp [removeField, lookupField, hp, ih]

theorem lookupField_modify_eq (v : FieldMap) (k : String) (n : Nat) :
    lookupField (applyDetailedChange v (.modify k n)) k =
      (lookupField v k).map (fun _ => n) := by
  rw [applyDetailedChange]
  induction v with
  | nil => rfl
  | cons p rest ih =>
    by_cases hp : p.1 = k <;> simp [modifyField, lookupField, hp, ih]

theorem lookupField_add_eq (v : FieldMap) (k : String) (n : Nat) :
    lookupField (applyDetailedChange v (.add k n)) k =
      match lookupField v k with
      | some x => some x
      | none => some n := by
  rw [applyDetailedChange, lookupField_append]
  cases lookupField v k <;> simp [lookupField]

theorem compareField_key (base target : FieldMap) (k : String) (dc : DetailedChange)
    (h : compareField base target k = some dc) : dc.key = k := by
  rw [compareField] at h
  cases hb : lookupField base k <;> cases ht : lookupField target k <;> rw [hb, ht] at h
  · exact absurd h (by simp)
  · injection h with h
    subst h
    rfl
  · injection h with h
    subst h
    rfl
  · rename_i bv tv
    by_cases he : bv = tv
    · simp [he] at h
    · simp [he] at h
      subst h
      rfl

theorem filterMap_compare_no_key (base target : FieldMap) (l : List String) (k : String)
    (hk : k ∉ l) :
    ∀ dc ∈ l.filterMap (compareField base target), dc.key ≠ k := by
  intro dc hdc
  rcases List.mem_filterMap.mp hdc with ⟨a, ha, hfa⟩
  rw [compareField_key base target a dc hfa]
  intro he
  exact hk (he ▸ ha)

theorem lookupField_apply_filterMap (base target v : FieldMap) (l : List String) (k : String)
    (hnd : l.Nodup) :
    lookupField (applyDetailedChanges v (l.filterMap (compareField base target))) k =
      if k ∈ l then
        match compareField base target k with
        | none => lookupField v k
        | some (.remove _) => none
        | some (.modify _ n) => (lookupField v k).map (fun _ => n)
        | some (.add _ n) =>
          match lookupField v k with
          | some x => some x
          | none => some n
      else lookupField v k := by
  induction l generalizing v with
  | nil => simp [applyDetailedChanges]
  | cons a rest ih =>
    have hna : a ∉ rest := (List.nodup_cons.mp hnd).1
    have hnr : rest.Nodup := (List.nodup_cons.mp hnd).2
    rw [List.filterMap_cons]
    by_cases hak : a = k
    · rw [hak] at hna
      rw [hak]
      rw [if_pos (List.mem_cons_self k rest)]
      cases hc : compareField base target k with
      | none =>
        exact lookupField_applyMany_ne _ _ _ (filterMap_compare_no_key base target rest k hna)
      | some dc =>
        have hkey := compareField_key base target k dc hc
        cases dc with
        | add k' n =>
          simp only [DetailedChange.key] at hkey
          subst hkey
          rw [show applyDetailedChanges v
              (DetailedChange.add k' n :: rest.filterMap (compareField base target)) =
            applyDetailedChanges (applyDetailedChange v (DetailedChange.add k' n))
              (rest.filterMap (compareField base target)) from rfl]
          rw [lookupField_applyMany_ne _ _ _
            (filterMap_compare_no_key base target rest k' hna)]
          exact lookupField_add_eq v k' n
        | remove k' =>
          simp only [DetailedChange.key] at hkey
          subst hkey
          rw [show applyDetailedChanges v
              (DetailedChange.remove k' :: rest.filterMap (compareField base target)) =
            applyDetailedChanges (applyDetailedChange v (DetailedChange.remove k'))
              (rest.filterMap (compareField base target)) from rfl]
          rw [lookupField_applyMany_ne _ _ _
            (filterMap_compare_no_key base target rest k' hna)]
          exact lookupField_remove_eq v k' 
        | modify k' n =>
          simp only [DetailedChange.key] at hkey
          subst hkey
          rw [show applyDetailedChanges v
              (DetailedChange.modify k' n :: rest.filterMap (compareField base target)) =
            applyDetailedChanges (applyDetailedChange v (DetailedChange.modify k' n))
              (rest.filterMap (compareField base target)) from rfl]
          rw [lookupField_applyMany_ne _ _ _
            (filterMap_compare_no_key base target rest k' hna)]
          exact lookupField_modify_eq v k' n
    · have hkr_iff : k ∈ a :: rest ↔ k ∈ rest := by
        constructor
        · intro h
          rcases List.mem_cons.mp h with h | h
          · exact absurd h.symm hak
          · exact h
        · exact List.mem_cons_of_mem a
      cases hc : compareField base target a with
      | none =>
        rw [ih v hnr]
        by_cases hkr : k ∈ rest
        · rw [if_pos hkr, if_pos (hkr_iff.mpr hkr)]
        · rw [if_neg hkr, if_neg (fun h => hkr (hkr_iff.mp h))]
      | some dc =>
        have hkey := compareField_key base target a dc hc
        rw [show applyDetailedChanges v (dc :: rest.filterMap (compareField base target)) =
          applyDetailedChanges (applyDetailedChange v dc)
            (rest.filterMap (compareField base target)) from rfl]
        rw [ih (applyDetailedChange v dc) hnr]
        have hv : lookupField (applyDetailedChange v dc) k = lookupField v k :=
          lookupField_applyDetailedChange_ne v dc k (by rw [hkey]; exact hak)
        by_cases hkr : k ∈ rest
        · rw [if_pos hkr, if_pos (hkr_iff.mpr hkr)]
          cases hck : compareField base target k with
          | none => exact hv
          | some dck => cases dck <;> simp [hv]
        · rw [if_neg hkr, if_neg (fun h => hkr (hkr_iff.mp h))]
          exact hv

theorem mem_of_lookupField (v : FieldMap) (k : String) (n : Nat)
    (h : lookupField v k = some n) : k ∈ v.map Prod.fst := by
  induction v with
  | nil => exact absurd h (by simp [lookupField])
  | cons p rest ih =>
    rw [lookupField] at h
    by_cases hp : p.1 = k
    · rw [List.map_cons]
      rw [hp] at *
      exact List.mem_cons_self k _
    · rw [if_neg hp] at h
      exact List.mem_cons_of_mem _ (ih h)

theorem lookupField_eq_none_of_not_mem (v : FieldMap) (k : String)
    (h : k ∉ v.map Prod.fst) : lookupField v k = none := by
  cases hv : lookupField v k with
  | none => rfl
  | some n => exact absurd (mem_of_lookupField v k n hv) h

/-- Round trip of the structural diff and patch: applying to a base value the
detailed compare from that base to a target makes every field read as in the
target. -/
theorem lookupField_apply_compare (base target : FieldMap) (k : String) :
    lookupField (applyDetailedChanges base (detailedCompare base target)) k =
      lookupField target k := by
  rw [detailedCompare,
    lookupField_apply_filterMap base target base _ k (List.nodup_dedup _)]
  by_cases hmem : k ∈ (base.map Prod.fst ++ target.map Prod.fst).dedup
  · rw [if_pos hmem]
    cases hb : lookupField base k with
    | none =>
      cases ht : lookupField target k with
      | none => simp [compareField, hb, ht]
      | some tv => simp [compareField, hb, ht]
    | some bv =>
      cases ht : lookupField target k with
      | none => simp [compareField, hb, ht]
      | some tv =>
        by_cases he : bv = tv
        · simp [compareField, hb, ht, he]
        · simp [compareField, hb, ht, he]
  · rw [if_neg hmem]
    have hsplit : k ∉ base.map Prod.fst ∧ k ∉ target.map Prod.fst := by
      rw [List.mem_dedup, List.mem_append] at hmem
      exact ⟨fun h => hmem (Or.inl h), fun h => hmem (Or.inr h)⟩
    rw [lookupField_eq_none_of_not_mem base k hsplit.1,
      lookupField_eq_none_of_not_mem target k hsplit.2]

/-! ## Elements, changes and plan items

Translated from `@salto-io/adapter-api` as used by `deploy_actions.ts`: an element
carries a stable identifier scoped to an adapter namespace and a value; a change is
an addition, modification or removal of one element; a plan item groups the changes
of one deploy group under a group key. -/

structure ElemID where
  adapter : String
  typeName : String
deriving DecidableEq, Repr

def ElemID.getFullName (id : ElemID) : String :=
  id.adapter ++ "." ++ id.typeName

structure Element where
  elemID : ElemID
  value : FieldMap
deriving DecidableEq, Repr

inductive Change where
  | addition (after : Element)
  | modification (before after : Element)
  | removal (before : Element)
deriving DecidableEq, Repr

def getChangeData : Change → Element
  | .addition a => a
  | .modification _ a => a
  | .removal b => b

def isAdditionOrModificationChange : Change → Bool
  | .addition _ => true
  | .modification _ _ => true
  | .removal _ => false

/-- A node of the deploy plan: its group key and the changes of the group
(`planItem.changes()`, equally the values of `planItem.items`). -/
structure PlanItem where
  groupKey : String
  changes : List Change
deriving DecidableEq, Repr

/-- The elements held by the changes of a plan item, in the order of
`[...item.items.values()].map(getChangeData)`. -/
def planElements (item : PlanItem) : List Element :=
  item.changes.map getChangeData

/-- The index the lodash `keyBy` table maps a full name to: the last position in
the plan element list whose element carries that full name (later entries of
`keyBy` overwrite earlier ones). -/
def lastIndexWith (elems : List Element) (fullName : String) : Option Nat :=
  match elems with
  | [] => none
  | e :: rest =>
    match lastIndexWith rest fullName with
    | some i => some (i + 1)
    | none => if e.elemID.getFullName = fullName then some 0 else none

def modifyIdx (l : List Element) (i : Nat) (f : Element → Element) : List Element :=
  match l, i with
  | [], _ => []
  | e :: rest, 0 => f e :: rest
  | e :: rest, j + 1 => e :: modifyIdx rest j f

/-- One step of the `forEach` body of `updatePlanElement`: look the updated
element up in the `keyBy` table built from the original plan elements and, when
present, patch the found plan element in place by the structural diff toward the
updated element. -/
def updateStep (origElems : List Element) (es : List Element) (updatedElement : Element) :
    List Element :=
  match lastIndexWith origElems updatedElement.elemID.getFullName with
  | none => es
  | some i =>
    modifyIdx es i fun planElement =>
      { planElement with
        value := applyDetailedChanges planElement.value
          (detailedCompare planElement.value updatedElement.value) }

/-- Translation of `updatePlanElement` (deploy_actions.ts lines 81 to 95): build
the `keyBy` table of the plan elements, then for every applied addition or
modification change patch the matching plan element with the detailed compare
toward the adapter result.  The in-place mutation of the shared element objects is
rendered as returning the updated plan element list. -/
def updatePlanElement (item : PlanItem) (appliedChanges : List Change) : List Element :=
  ((appliedChanges.filter isAdditionOrModificationChange).map getChangeData).foldl
    (updateStep (planElements item)) (planElements item)

theorem modifyIdx_length (l : List Element) (i : Nat) (f : Element → Element) :
    (modifyIdx l i f).length = l.length := by
  induction l generalizing i with
  | nil => rfl
  | cons e rest ih =>
    cases i with
    | zero => rfl
    | succ j => simp [modifyIdx, ih]

theorem modifyIdx_get?_ne (l : List Element) (i j : Nat) (f : Element → Element)
    (h : i ≠ j) : (modifyIdx l j f).get? i = l.get? i := by
  induction l generalizing i j with
  | nil => rfl
  | cons e rest ih =>
    cases j with
    | zero =>
      cases i with
      | zero => exact absurd rfl h
      | succ m => rfl
    | succ j' =>
      cases i with
      | zero => rfl
      | succ m => exact ih m j' (fun he => h (by rw [he]))

theorem modifyIdx_get?_eq (l : List Element) (i : Nat) (f : Element → Element) :
    (modifyIdx l i f).get? i = (l.get? i).map f := by
  induction l generalizing i with
  | nil => rfl
  | cons e rest ih =>
    cases i with
    | zero => rfl
    | succ j => exact ih j

theorem lastIndexWith_get? (elems : List Element) (nm : String) (i : Nat)
    (h : lastIndexWith elems nm = some i) :
    ∃ e, elems.get? i = some e ∧ e.elemID.getFullName = nm := by
  induction elems generalizing i with
  | nil => exact absurd h (by simp [lastIndexWith])
  | cons e rest ih =>
    rw [lastIndexWith] at h
    cases hr : lastIndexWith rest nm with
    | some j =>
      rw [hr] at h
      injection h with h
      subst h
      rcases ih j hr with ⟨e', he', hn⟩
      exact ⟨e', he', hn⟩
    | none =>
      rw [hr] at h
      by_cases hn : e.elemID.getFullName = nm
      · rw [if_pos hn] at h
        injection h with h
        subst h
        exact ⟨e, rfl, hn⟩
      · rw [if_neg hn] at h
        exact absurd h (by simp)

theorem lastIndexWith_isSome (elems : List Element) (nm : String) (e : Element)
    (he : e ∈ elems) (hn : e.elemID.getFullName = nm) :
    ∃ i, lastIndexWith elems nm = some i := by
  induction elems with
  | nil => exact absurd he (List.not_mem_nil e)
  | cons a rest ih =>
    rw [lastIndexWith]
    cases hr : lastIndexWith rest nm with
    | some j => exact ⟨j + 1, rfl⟩
    | none =>
      rcases List.mem_cons.mp he with h | h
      · subst h
        rw [if_pos hn]
        exact ⟨0, rfl⟩
      · rcases ih h with ⟨i, hi⟩
        rw [hi] at hr
        exact absurd hr (by simp)

theorem updateStep_of_none (orig es : List Element) (u : Element)
    (h : lastIndexWith orig u.elemID.getFullName = none) :
    updateStep orig es u = es := by
  rw [updateStep, h]

theorem updateStep_of_idx (orig es : List Element) (u : Element) (i : Nat)
    (h : lastIndexWith orig u.elemID.getFullName = some i) :
    updateStep orig es u = modifyIdx es i (fun planElement =>
      { planElement with
        value := applyDetailedChanges planElement.value
          (detailedCompare planElement.value u.value) }) := by
  rw [updateStep, h]

theorem foldl_updateStep_length (orig : List Element) (upds : List Element)
    (es : List Element) :
    (upds.foldl (updateStep orig) es).length = es.length := by
  induction upds generalizing es with
  | nil => rfl
  | cons u rest ih =>
    rw [List.foldl_cons, ih]
    cases hl : lastIndexWith orig u.elemID.getFullName with
    | none => rw [updateStep_of_none orig es u hl]
    | some j => rw [updateStep_of_idx orig es u j hl, modifyIdx_length]

theorem foldl_updateStep_get? (orig : List Element) (upds : List Element)
    (es : List Element) (i : Nat)
    (h : ∀ u ∈ upds, lastIndexWith orig u.elemID.getFullName ≠ some i) :
    (upds.foldl (updateStep orig) es).get? i = es.get? i := by
  induction upds generalizing es with
  | nil => rfl
  | cons u rest ih =>
    rw [List.foldl_cons, ih _ (fun x hx => h x (List.mem_cons_of_mem _ hx))]
    cases hl : lastIndexWith orig u.elemID.getFullName with
    | none => rw [updateStep_of_none orig es u hl]
    | some j =>
      rw [updateStep_of_idx orig es u j hl]
      have hji : j ≠ i := fun he => h u (List.mem_cons_self _ _) (by rw [hl, he])
      exact modifyIdx_get?_ne es i j _ (fun he => hji he.symm)

/-- C9: calling `updatePlanElement` with an empty applied change list leaves every
element of the plan item unchanged: the merge with no applied changes is a no-op on
the plan element graph. -/
theorem updatePlanElement_empty_noop (item : PlanItem) :
    updatePlanElement item [] = planElements item := rfl

/-- C10: `updatePlanElement` only ever mutates plan elements whose full name
matches an addition-or-modification applied change: the length of the element list
is preserved; an element whose full name matches no addition-or-modification
applied change is returned unchanged at its position; an applied list holding only
removals is a complete no-op; and an addition-or-modification applied change whose
full name matches no plan element is silently dropped, leaving the result as if it
were absent. -/
theorem updatePlanElement_frame (item : PlanItem) (appliedChanges : List Change) :
    ((updatePlanElement item appliedChanges).length = (planElements item).length)
    ∧ (∀ i e, (planElements item).get? i = some e →
        (∀ c ∈ appliedChanges, isAdditionOrModificationChange c = true →
          (getChangeData c).elemID.getFullName ≠ e.elemID.getFullName) →
        (updatePlanElement item appliedChanges).get? i = some e)
    ∧ ((∀ c ∈ appliedChanges, isAdditionOrModificationChange c = false) →
        updatePlanElement item appliedChanges = planElements item)
    ∧ (∀ u pre post, appliedChanges = pre ++ u :: post →
        (∀ e ∈ planElements item,
          e.elemID.getFullName ≠ (getChangeData u).elemID.getFullName) →
        updatePlanElement item appliedChanges = updatePlanElement item (pre ++ post)) := by
  refine ⟨foldl_updateStep_length _ _ _, ?_, ?_, ?_⟩
  · intro i e hget hno
    rw [updatePlanElement, foldl_updateStep_get?]
    · exact hget
    · intro x hx hlx
      rcases List.mem_map.mp hx with ⟨c, hc, hxc⟩
      rcases List.mem_filter.mp hc with ⟨hcm, hcmod⟩
      rcases lastIndexWith_get? _ _ i hlx with ⟨e0, he0, hn0⟩
      rw [hget] at he0
      injection he0 with he0
      rw [← he0] at hn0
      exact hno c hcm hcmod (by rw [hxc, ← hn0])
  · intro hrem
    have hfil : appliedChanges.filter isAdditionOrModificationChange = [] := by
      rw [List.filter_eq_nil_iff]
      intro c hc
      rw [hrem c hc]
      exact Bool.false_ne_true
    rw [updatePlanElement, hfil]
    rfl
  · intro u pre post heq hnomatch
    have hnone :
        lastIndexWith (planElements item) (getChangeData u).elemID.getFullName = none := by
      cases hl :
          lastIndexWith (planElements item) (getChangeData u).elemID.getFullName with
      | none => rfl
      | some i =>
        rcases lastIndexWith_get? _ _ i hl with ⟨e0, he0, hn0⟩
        exact absurd hn0 (hnomatch e0 (List.get?_mem he0))
    subst heq
    rw [updatePlanElement, updatePlanElement, List.filter_append, List.filter_append,
      List.map_append, List.map_append, List.foldl_append, List.foldl_append]
    by_cases hmod : isAdditionOrModificationChange u = true
    · rw [List.filter_cons_of_pos hmod, List.map_cons, List.foldl_cons,
        updateStep_of_none _ _ _ hnone]
    · rw [List.filter_cons_of_neg (by simpa using hmod)]

/-- C2: for an applied addition-or-modification change whose full element name
matches a plan element (the element the `keyBy` table maps that name to, with the
system invariant that full names of applied changes are pairwise distinct and that
the matched plan element carries the same element identifier), `updatePlanElement`
patches that plan element in place so that afterwards it is structurally equal to
the authoritative after value of the applied change: same element identifier, and
every field reads as in the after value. -/
theorem updatePlanElement_applies_after (item : PlanItem) (appliedChanges : List Change)
    (u : Change) (j : Nat) (ej : Element)
    (hu : u ∈ appliedChanges) (hmod : isAdditionOrModificationChange u = true)
    (hdistinct : ((appliedChanges.filter isAdditionOrModificationChange).map
        getChangeData).Pairwise
      (fun a b => a.elemID.getFullName ≠ b.elemID.getFullName))
    (hidx : lastIndexWith (planElements item) (getChangeData u).elemID.getFullName = some j)
    (hget : (planElements item).get? j = some ej)
    (hid : ej.elemID = (getChangeData u).elemID) :
    ∃ patched, (updatePlanElement item appliedChanges).get? j = some patched ∧
      patched.elemID = (getChangeData u).elemID ∧
      ∀ k, lookupField patched.value k = lookupField (getChangeData u).value k := by
  have hmem : getChangeData u ∈
      (appliedChanges.filter isAdditionOrModificationChange).map getChangeData :=
    List.mem_map_of_mem _ (List.mem_filter.mpr ⟨hu, hmod⟩)
  rcases List.append_of_mem hmem with ⟨l1, l2, hsplit⟩
  rw [hsplit] at hdistinct
  rcases List.pairwise_append.mp hdistinct with ⟨hp1, hp2, hcross⟩
  have hl1 : ∀ x ∈ l1, x.elemID.getFullName ≠ (getChangeData u).elemID.getFullName :=
    fun x hx => hcross x hx (getChangeData u) (List.mem_cons_self _ _)
  have hl2 : ∀ y ∈ l2, y.elemID.getFullName ≠ (getChangeData u).elemID.getFullName :=
    fun y hy => Ne.symm ((List.pairwise_cons.mp hp2).1 y hy)
  have hejname : ej.elemID.getFullName = (getChangeData u).elemID.getFullName := by
    rw [hid]
  have hframe : ∀ (l : List Element),
      (∀ x ∈ l, x.elemID.getFullName ≠ (getChangeData u).elemID.getFullName) →
      ∀ x ∈ l, lastIndexWith (planElements item) x.elemID.getFullName ≠ some j := by
    intro l hl x hx hlx
    rcases lastIndexWith_get? _ _ j hlx with ⟨e0, he0, hn0⟩
    rw [hget] at he0
    injection he0 with he0
    rw [← he0] at hn0
    exact hl x hx (by rw [← hn0]; exact hejname)
  have hes1 : (l1.foldl (updateStep (planElements item)) (planElements item)).get? j =
      some ej := by
    rw [foldl_updateStep_get? _ _ _ _ (hframe l1 hl1)]
    exact hget
  refine ⟨{ ej with
        value := applyDetailedChanges ej.value
            (detailedCompare ej.value (getChangeData u).value) },
    ?_, hid, ?_⟩
  · rw [updatePlanElement, hsplit, List.foldl_append, List.foldl_cons,
      foldl_updateStep_get? _ _ _ _ (hframe l2 hl2),
      updateStep_of_idx _ _ _ j hidx, modifyIdx_get?_eq, hes1]
    rfl
  · intro k
    exact lookupField_apply_compare ej.value (getChangeData u).value k

def sfID : ElemID := { adapter := "salesforce", typeName := "Lead" }

def exBase : Element := { elemID := sfID, value := [("f", 1)] }

def exAfter : Element := { elemID := sfID, value := [("f", 2)] }

def exItem : PlanItem :=
  { groupKey := "salesforce.Lead.group", changes := [Change.modification exBase exBase] }

def exApplied : List Change := [Change.modification exBase exAfter]

/-- Witness for C2 at a concrete plan item and applied change. -/
theorem updatePlanElement_applies_after_witness :
    ∃ patched, (updatePlanElement exItem exApplied).get? 0 = some patched ∧
      patched.elemID = (getChangeData (Change.modification exBase exAfter)).elemID ∧
      ∀ k, lookupField patched.value k =
        lookupField (getChangeData (Change.modification exBase exAfter)).value k :=
  updatePlanElement_applies_after exItem exApplied (Change.modification exBase exAfter)
    0 exBase (by decide) rfl (by decide) (by decide) rfl rfl

def jiraElem : Element :=
  { elemID := { adapter := "jira", typeName := "Board" }, value := [] }

/-- Witness for C10 at a concrete plan item: a removal-only applied list is a
no-op, and an applied change naming an absent element is dropped. -/
theorem updatePlanElement_frame_witness :
    (updatePlanElement exItem [Change.removal exAfter] = planElements exItem)
    ∧ (updatePlanElement exItem [Change.addition jiraElem] =
        updatePlanElement exItem []) :=
  ⟨(updatePlanElement_frame exItem [Change.removal exAfter]).2.2.1 (by decide),
    (updatePlanElement_frame exItem [Change.addition jiraElem]).2.2.2
      (Change.addition jiraElem) [] [] rfl (by decide)⟩

/-! ## Adapter operations and per-item dispatch

Translation of `deployOrValidate` (deploy_actions.ts lines 35 to 45) and
`deployAction` (lines 47 to 60).  A rejected promise or a thrown `new Error(msg)`
is rendered as `JsErr.thrown msg`; the runtime crash of reading a property of
`undefined` (the unguarded `changes[0]` access) is rendered as the distinct
`JsErr.typeError`. -/

inductive JsErr where
  | thrown (msg : String)
  | typeError (msg : String)
deriving DecidableEq, Repr

def JsErr.message : JsErr → String
  | .thrown m => m
  | .typeError m => m

structure ExtraProperties where
  deploymentUrls : Option (List String)
deriving DecidableEq, Repr

structure DeployResult where
  appliedChanges : List Change
  errors : List String
  extraProperties : Option ExtraProperties
deriving DecidableEq, Repr

structure ChangeGroup where
  groupID : String
  changes : List Change
deriving DecidableEq, Repr

structure DeployOptions where
  changeGroup : ChangeGroup
deriving DecidableEq, Repr

/-- An adapter as used by the orchestrator: a mandatory deploy operation and an
optional validate operation; either may reject with an error message. -/
structure AdapterOperations where
  deploy : DeployOptions → Except String DeployResult
  validate : Option (DeployOptions → Except String DeployResult)

/-- Translation of `deployOrValidate`: in normal mode dispatch to
`adapter.deploy`; in check-only mode fail with the capability error when the
adapter has no validate operation, otherwise dispatch to `adapter.validate`. -/
def deployOrValidate (adapter : AdapterOperations) (adapterName : String)
    (opts : DeployOptions) (checkOnly : Bool) : Except JsErr DeployResult :=
  if !checkOnly then
    (adapter.deploy opts).mapError JsErr.thrown
  else
    match adapter.validate with
    | none =>
      .error (.thrown ("Check-Only deployment is not supported in adapter " ++ adapterName))
    | some validate => (validate opts).mapError JsErr.thrown

/-- Translation of `deployAction`: read the first change of the plan item to
resolve the owning adapter name (an unguarded access that crashes on an empty
change list), look the adapter up, and dispatch. -/
def deployAction (planItem : PlanItem) (adapters : String → Option AdapterOperations)
    (checkOnly : Bool) : Except JsErr DeployResult :=
  match planItem.changes.head? with
  | none => .error (.typeError "Cannot read properties of undefined (reading elemID)")
  | some firstChange =>
    let adapterName := (getChangeData firstChange).elemID.adapter
    match adapters adapterName with
    | none => .error (.thrown ("Missing adapter for " ++ adapterName))
    | some adapter =>
      deployOrValidate adapter adapterName
        { changeGroup := { groupID := planItem.groupKey, changes := planItem.changes } }
        checkOnly

/-- C5: the check-only capability gate of `deployOrValidate`.  With
`checkOnly = true` and no validate operation the dispatch fails with the
descriptive capability error and the deploy operation is never consulted; with
`checkOnly = false` the result is exactly the deploy dispatch and the validate
operation is never consulted; with `checkOnly = true` and a validate operation the
result is exactly the validate dispatch and the deploy operation is never
consulted. -/
theorem deployOrValidate_capability_gate (adapter : AdapterOperations)
    (adapterName : String) (opts : DeployOptions) :
    (adapter.validate = none →
      deployOrValidate adapter adapterName opts true =
        .error (.thrown ("Check-Only deployment is not supported in adapter " ++ adapterName))
      ∧ ∀ d, deployOrValidate { adapter with deploy := d } adapterName opts true =
          deployOrValidate adapter adapterName opts true)
    ∧ (deployOrValidate adapter adapterName opts false =
        (adapter.deploy opts).mapError JsErr.thrown
      ∧ ∀ v, deployOrValidate { adapter with validate := v } adapterName opts false =
          deployOrValidate adapter adapterName opts false)
    ∧ (∀ validateOp, adapter.validate = some validateOp →
      deployOrValidate adapter adapterName opts true =
        (validateOp opts).mapError JsErr.thrown
      ∧ ∀ d, deployOrValidate { adapter with deploy := d } adapterName opts true =
          deployOrValidate adapter adapterName opts true) := by
  refine ⟨?_, ⟨rfl, fun v => rfl⟩, ?_⟩
  · intro hv
    constructor
    · rw [deployOrValidate]
      simp only [Bool.not_true, if_neg (by exact fun h => Bool.false_ne_true h)]
      rw [hv]
    · intro d
      rw [deployOrValidate, deployOrValidate]
      simp only [Bool.not_true, if_neg (by exact fun h => Bool.false_ne_true h)]
  · intro validateOp hv
    constructor
    · rw [deployOrValidate]
      simp only [Bool.not_true, if_neg (by exact fun h => Bool.false_ne_true h)]
      rw [hv]
    · intro d
      rw [deployOrValidate, deployOrValidate]
      simp only [Bool.not_true, if_neg (by exact fun h => Bool.false_ne_true h)]

def exDeployResult : DeployResult :=
  { appliedChanges := [], errors := [], extraProperties := none }

def exAdapterNoValidate : AdapterOperations :=
  { deploy := fun _ => .ok exDeployResult, validate := none }

def exOpts : DeployOptions :=
  { changeGroup := { groupID := "salesforce.Lead.group", changes := [] } }

/-- Witness for C5 at a concrete adapter without a validate operation. -/
theorem deployOrValidate_capability_gate_witness :
    deployOrValidate exAdapterNoValidate "salesforce" exOpts true =
      .error (.thrown ("Check-Only deployment is not supported in adapter " ++ "salesforce")) :=
  ((deployOrValidate_capability_gate exAdapterNoValidate "salesforce" exOpts).1 rfl).1

theorem deployOrValidate_no_typeError (adapter : AdapterOperations)
    (adapterName : String) (opts : DeployOptions) (checkOnly : Bool) :
    ∀ m, deployOrValidate adapter adapterName opts checkOnly ≠ .error (.typeError m) := by
  intro m
  rw [deployOrValidate]
  by_cases hc : checkOnly
  · rw [hc]
    simp only [Bool.not_true, if_neg (by exact fun hf => Bool.false_ne_true hf)]
    cases hv : adapter.validate with
    | none => simp
    | some validateOp =>
      cases hres : validateOp opts with
      | ok r => simp [hres, Except.mapError]
      | error e => simp [hres, Except.mapError]
  · rw [Bool.not_eq_true] at hc
    rw [hc]
    simp only [Bool.not_false, if_pos rfl]
    cases hres : adapter.deploy opts with
    | ok r => simp [hres, Except.mapError]
    | error e => simp [hres, Except.mapError]

/-- C8: `deployAction` reads the first change of the plan item with no emptiness
guard.  On a plan item with zero changes the first-element access is out of
bounds and the operation crashes with a type error; on a non-empty change list
that crash can never occur (every other failure is a thrown domain error). -/
theorem deployAction_nonempty_precondition (planItem : PlanItem)
    (adapters : String → Option AdapterOperations) (checkOnly : Bool) :
    (planItem.changes = [] →
      deployAction planItem adapters checkOnly =
        .error (.typeError "Cannot read properties of undefined (reading elemID)"))
    ∧ (planItem.changes ≠ [] →
      ∀ m, deployAction planItem adapters checkOnly ≠ .error (.typeError m)) := by
  constructor
  · intro hempty
    rw [deployAction, hempty]
    rfl
  · intro hne m h
    rw [deployAction] at h
    cases hchanges : planItem.changes with
    | nil => exact hne hchanges
    | cons c rest =>
      rw [hchanges] at h
      simp only [List.head?] at h
      cases hada : adapters (getChangeData c).elemID.adapter with
      | none =>
        rw [hada] at h
        simp at h
      | some adapter =>
        rw [hada] at h
        exact deployOrValidate_no_typeError adapter _ _ checkOnly m h

def exEmptyItem : PlanItem := { groupKey := "empty.group", changes := [] }

/-- Witness for C8: the concrete empty plan item crashes; the concrete singleton
plan item cannot crash with a type error. -/
theorem deployAction_nonempty_precondition_witness :
    (deployAction exEmptyItem (fun _ => none) false =
      .error (.typeError "Cannot read properties of undefined (reading elemID)"))
    ∧ ∀ m, deployAction exItem (fun _ => none) false ≠ .error (.typeError m) :=
  ⟨(deployAction_nonempty_precondition exEmptyItem (fun _ => none) false).1 rfl,
    (deployAction_nonempty_precondition exItem (fun _ => none) false).2
      (by decide)⟩

/-! ## The per-node handler of deployActions

Translation of the async handler passed to `deployPlan.walkAsync` (deploy_actions.ts
lines 107 to 135).  The run-wide mutable arrays (`appliedChanges`, `deploymentUrls`),
the in-place plan updates and the callback invocations (`reportProgress`,
`postDeployAction`) are threaded through an explicit state; callback invocations are
recorded as events in call order. -/

inductive ItemStatus where
  | started
  | finished
  | error
  | cancelled
deriving DecidableEq, Repr

abbrev PlanItemId := Nat

inductive Event where
  | progress (itemId : PlanItemId) (status : ItemStatus) (details : Option String)
  | postDeploy (appliedChanges : List Change)
deriving DecidableEq, Repr

structure DeployState where
  appliedChanges : List Change
  deploymentUrls : List String
  planUpdates : List (PlanItemId × List Element)
  events : List Event
deriving DecidableEq, Repr

def initialDeployState : DeployState :=
  { appliedChanges := [], deploymentUrls := [], planUpdates := [], events := [] }

/-- The deployment URLs a deploy result contributes to the run-wide list
(`result.extraProperties?.deploymentUrls`, when defined). -/
def resultUrls (result : DeployResult) : List String :=
  match result.extraProperties with
  | some extra =>
    match extra.deploymentUrls with
    | some urls => urls
    | none => []
  | none => []

/-- The error thrown when the adapter result carries a non-empty error list. -/
def groupFailMsg (checkOnly : Bool) (groupKey : String) (errors : List String) : String :=
  "Failed to " ++ (if checkOnly then "validate" else "deploy") ++ " " ++ groupKey ++
    " with errors:\n" ++ String.intercalate "\n" errors

/-- Translation of the per-node handler of `deployActions`: report `started`,
dispatch through `deployAction`, append the applied changes and deployment URLs to
the run-wide lists, update the plan elements, invoke the post-deploy hook, then
fail the node when the adapter result carries errors, else report `finished`.  Any
error is reported as `error` progress for the node and rethrown (returned as the
second component). -/
def itemHandler (adapters : String → Option AdapterOperations)
    (post : List Change → Option JsErr) (checkOnly : Bool)
    (itemId : PlanItemId) (item : PlanItem) (st : DeployState) :
    DeployState × Option JsErr :=
  let st1 := { st with events := st.events ++ [Event.progress itemId ItemStatus.started none] }
  match deployAction item adapters checkOnly with
  | .error e =>
    ({ st1 with events := st1.events ++ [Event.progress itemId ItemStatus.error (some e.message)] },
      some e)
  | .ok result =>
    let st2 := { st1 with appliedChanges := st1.appliedChanges ++ result.appliedChanges }
    let st3 := { st2 with deploymentUrls := st2.deploymentUrls ++ resultUrls result }
    let st4 := { st3 with
      planUpdates := st3.planUpdates ++ [(itemId, updatePlanElement item result.appliedChanges)] }
    let st5 := { st4 with events := st4.events ++ [Event.postDeploy result.appliedChanges] }
    match post result.appliedChanges with
    | some e =>
      ({ st5 with
          events := st5.events ++ [Event.progress itemId ItemStatus.error (some e.message)] },
        some e)
    | none =>
      if 0 < result.errors.length then
        ({ st5 with
            events := st5.events ++ [Event.progress itemId ItemStatus.error
              (some (groupFailMsg checkOnly item.groupKey result.errors))] },
          some (JsErr.thrown (groupFailMsg checkOnly item.groupKey result.errors)))
      else
        ({ st5 with
            events := st5.events ++ [Event.progress itemId ItemStatus.finished none] },
          none)

/-- C1: when the adapter dispatch of a plan item returns a result with a non-empty
error list, the per-node handler raises a failure for the node (and never reports
`finished`), yet the applied changes of the result have already been appended to
the run-wide applied list and its deployment URLs to the run-wide extra-properties
list before the failure is raised. -/
theorem itemHandler_commits_before_failure (adapters : String → Option AdapterOperations)
    (post : List Change → Option JsErr) (checkOnly : Bool) (itemId : PlanItemId)
    (item : PlanItem) (st : DeployState) (result : DeployResult)
    (hdispatch : deployAction item adapters checkOnly = .ok result)
    (herr : result.errors ≠ []) :
    ((itemHandler adapters post checkOnly itemId item st).2).isSome = true
    ∧ (itemHandler adapters post checkOnly itemId item st).1.appliedChanges =
        st.appliedChanges ++ result.appliedChanges
    ∧ (itemHandler adapters post checkOnly itemId item st).1.deploymentUrls =
        st.deploymentUrls ++ resultUrls result
    ∧ ∃ tail, (itemHandler adapters post checkOnly itemId item st).1.events =
        st.events ++ tail
      ∧ ∀ d, Event.progress itemId ItemStatus.finished d ∉ tail := by
  have hlen : 0 < result.errors.length := List.length_pos.mpr herr
  cases hpost : post result.appliedChanges with
  | some e =>
    refine ⟨?_, ?_, ?_, ?_⟩
    · simp [itemHandler, hdispatch, hpost]
    · simp [itemHandler, hdispatch, hpost]
    · simp [itemHandler, hdispatch, hpost]
    · refine ⟨[Event.progress itemId ItemStatus.started none,
        Event.postDeploy result.appliedChanges,
        Event.progress itemId ItemStatus.error (some e.message)], ?_, ?_⟩
      · simp [itemHandler, hdispatch, hpost, List.append_assoc]
      · intro d
        simp
  | none =>
    refine ⟨?_, ?_, ?_, ?_⟩
    · simp [itemHandler, hdispatch, hpost, hlen]
    · simp [itemHandler, hdispatch, hpost, hlen]
    · simp [itemHandler, hdispatch, hpost, hlen]
    · refine ⟨[Event.progress itemId ItemStatus.started none,
        Event.postDeploy result.appliedChanges,
        Event.progress itemId ItemStatus.error
          (some (groupFailMsg checkOnly item.groupKey result.errors))], ?_, ?_⟩
      · simp [itemHandler, hdispatch, hpost, hlen, List.append_assoc]
      · intro d
        simp

/-- C7: when the adapter dispatch of a plan item returns a result, the per-node
handler invokes the post-deploy hook exactly once, with exactly the applied
changes of that result, before any `finished` report: the events appended by the
handler are `started`, then the single hook invocation, then one final event that
is not a hook invocation (`finished` on success, `error` otherwise). -/
theorem itemHandler_postDeploy_once (adapters : String → Option AdapterOperations)
    (post : List Change → Option JsErr) (checkOnly : Bool) (itemId : PlanItemId)
    (item : PlanItem) (st : DeployState) (result : DeployResult)
    (hdispatch : deployAction item adapters checkOnly = .ok result) :
    ∃ last, (itemHandler adapters post checkOnly itemId item st).1.events =
        st.events ++ [Event.progress itemId ItemStatus.started none,
          Event.postDeploy result.appliedChanges, last]
      ∧ ∀ cs, last ≠ Event.postDeploy cs := by
  cases hpost : post result.appliedChanges with
  | some e =>
    refine ⟨Event.progress itemId ItemStatus.error (some e.message), ?_, ?_⟩
    · simp [itemHandler, hdispatch, hpost, List.append_assoc]
    · intro cs
      simp
  | none =>
    by_cases hlen : 0 < result.errors.length
    · refine ⟨Event.progress itemId ItemStatus.error
        (some (groupFailMsg checkOnly item.groupKey result.errors)), ?_, ?_⟩
      · simp [itemHandler, hdispatch, hpost, hlen, List.append_assoc]
      · intro cs
        simp
    · refine ⟨Event.progress itemId ItemStatus.finished none, ?_, ?_⟩
      · simp [itemHandler, hdispatch, hpost, hlen, List.append_assoc]
      · intro cs
        simp

def exFailResult : DeployResult :=
  { appliedChanges := [Change.modification exBase exAfter],
    errors := ["partial failure"],
    extraProperties := some { deploymentUrls := some ["https://example.invalid/deploy/1"] } }

def exAdapterFail : AdapterOperations :=
  { deploy := fun _ => .ok exFailResult, validate := none }

def exAdapters : String → Option AdapterOperations :=
  fun name => if name = "salesforce" then some exAdapterFail else none

/-- Witness for C1 at a concrete plan item whose adapter result partially applies
and reports an error. -/
theorem itemHandler_commits_before_failure_witness :
    ((itemHandler exAdapters (fun _ => none) false 0 exItem initialDeployState).2).isSome = true
    ∧ (itemHandler exAdapters (fun _ => none) false 0 exItem initialDeployState).1.appliedChanges =
        initialDeployState.appliedChanges ++ exFailResult.appliedChanges
    ∧ (itemHandler exAdapters (fun _ => none) false 0 exItem initialDeployState).1.deploymentUrls =
        initialDeployState.deploymentUrls ++ resultUrls exFailResult
    ∧ ∃ tail, (itemHandler exAdapters (fun _ => none) false 0 exItem initialDeployState).1.events =
        initialDeployState.events ++ tail
      ∧ ∀ d, Event.progress 0 ItemStatus.finished d ∉ tail :=
  itemHandler_commits_before_failure exAdapters (fun _ => none) false 0 exItem
    initialDeployState exFailResult rfl (by decide)

/-- Witness for C7 at the same concrete plan item. -/
theorem itemHandler_postDeploy_once_witness :
    ∃ last, (itemHandler exAdapters (fun _ => none) false 0 exItem initialDeployState).1.events =
        initialDeployState.events ++ [Event.progress 0 ItemStatus.started none,
          Event.postDeploy exFailResult.appliedChanges, last]
      ∧ ∀ cs, last ≠ Event.postDeploy cs :=
  itemHandler_postDeploy_once exAdapters (fun _ => none) false 0 exItem
    initialDeployState exFailResult rfl

/-! ## The DAG walker and the orchestrator

The walker (`walkAsync`, `WalkError`, `NodeSkippedError` of the dag package) is not
part of the shown sources and is modelled from the spec: handlers run per node in
topological order (the embedding executes one topological linearization of the
concurrent walk, which the spec leaves unspecified); a failed handler marks every
transitive dependent skipped, tagged with the first observed failing ancestor, and
skipped handlers are never invoked; the walk raises a single aggregate `WalkError`
mapping every failed or skipped node to its error. -/

inductive NodeError where
  | handlerError (e : JsErr)
  | nodeSkipped (causingNode : PlanItemId)
deriving DecidableEq, Repr

structure CircularDependencyError where
  causingNodeIds : List PlanItemId
  message : String
deriving DecidableEq, Repr

structure WalkError where
  handlerErrors : List (PlanItemId × NodeError)
  circularDependencyError : Option CircularDependencyError
deriving DecidableEq, Repr

/-- The plan as consumed by `deployActions`: node identifiers in one topological
order, the dependency edges, and item lookup. -/
structure Plan where
  nodes : List PlanItemId
  deps : PlanItemId → List PlanItemId
  getItem : PlanItemId → PlanItem

/-- Modelled from the spec: the failure a node inherits from a failed or skipped
predecessor — the first observed failing ancestor (a skipped predecessor passes
its own causing node on). -/
def skipCause (failures : List (PlanItemId × NodeError)) (d : PlanItemId) : PlanItemId :=
  match failures.find? (fun f => f.1 == d) with
  | some (_, NodeError.nodeSkipped c) => c
  | some (_, NodeError.handlerError _) => d
  | none => d

/-- Modelled from the spec: one scheduling step of the walker.  A node with a
failed or skipped predecessor is skipped without invoking its handler; otherwise
its handler runs and a raised error is recorded as this node handler error. -/
def walkStep (plan : Plan) (handler : PlanItemId → DeployState → DeployState × Option JsErr)
    (acc : DeployState × List (PlanItemId × NodeError)) (n : PlanItemId) :
    DeployState × List (PlanItemId × NodeError) :=
  match (plan.deps n).find? (fun d => acc.2.any (fun f => f.1 == d)) with
  | some d => (acc.1, acc.2 ++ [(n, NodeError.nodeSkipped (skipCause acc.2 d))])
  | none =>
    match handler n acc.1 with
    | (st, none) => (st, acc.2)
    | (st, some e) => (st, acc.2 ++ [(n, NodeError.handlerError e)])

/-- Modelled from the spec: the walk over every node, returning the aggregate
`WalkError` when any node failed or was skipped (the walk of an acyclic,
topologically listed plan reports no circular dependency error). -/
def walkAsync (plan : Plan)
    (handler : PlanItemId → DeployState → DeployState × Option JsErr)
    (st0 : DeployState) : DeployState × Option WalkError :=
  let acc := plan.nodes.foldl (walkStep plan handler) (st0, [])
  (acc.1, if acc.2.isEmpty then none
    else some { handlerErrors := acc.2, circularDependencyError := none })

/-- The per-node handler `deployActions` passes to the walker. -/
def planHandler (plan : Plan) (adapters : String → Option AdapterOperations)
    (post : List Change → Option JsErr) (checkOnly : Bool) :
    PlanItemId → DeployState → DeployState × Option JsErr :=
  fun itemId st => itemHandler adapters post checkOnly itemId (plan.getItem itemId) st

structure DeployError where
  elementId : String
  message : String
deriving DecidableEq, Repr

structure RequiredExtraProperties where
  deploymentUrls : List String
deriving DecidableEq, Repr

structure DeployActionResult where
  errors : List DeployError
  appliedChanges : List Change
  extraProperties : RequiredExtraProperties
deriving DecidableEq, Repr

def mkDeployError (elementId message : String) : DeployError :=
  { elementId := elementId, message := message }

def pushEvent (st : DeployState) (ev : Event) : DeployState :=
  { st with events := st.events ++ [ev] }

/-- The result object `deployActions` returns: the given error list plus the
accumulated applied changes and deployment URLs of a state. -/
def mkDeployActionResult (errors : List DeployError) (st : DeployState) :
    DeployActionResult :=
  { errors := errors,
    appliedChanges := st.appliedChanges,
    extraProperties := { deploymentUrls := st.deploymentUrls } }

/-- What the `catch` clause of `deployActions` receives: the walker aggregate, or
any other exception raised inside the `try` block. -/
inductive WalkFailure where
  | walkError (e : WalkError)
  | other (e : JsErr)

def skippedMsg (key causing : PlanItemId) : String :=
  "Element " ++ toString key ++ " was not deployed, as it depends on element " ++
    toString causing ++ " which failed to deploy"

/-- One iteration of the `handlerErrors.forEach` body of the catch block: a
skipped node reports `cancelled` progress with the causing node group key as
details and pushes the skip deploy error; any other node error pushes a deploy
error carrying its message. -/
def catchStep (plan : Plan) (acc : DeployState × List DeployError)
    (entry : PlanItemId × NodeError) : DeployState × List DeployError :=
  match entry.2 with
  | NodeError.nodeSkipped causing =>
    (pushEvent acc.1 (Event.progress entry.1 ItemStatus.cancelled
        (some (plan.getItem causing).groupKey)),
      acc.2 ++ [mkDeployError (plan.getItem entry.1).groupKey
        (skippedMsg entry.1 causing)])
  | NodeError.handlerError e =>
    (acc.1, acc.2 ++ [mkDeployError (plan.getItem entry.1).groupKey e.message])

/-- The deploy error the catch block pushes for one walker handler error entry. -/
def catchErrOf (plan : Plan) (entry : PlanItemId × NodeError) : DeployError :=
  match entry.2 with
  | NodeError.nodeSkipped causing =>
    mkDeployError (plan.getItem entry.1).groupKey (skippedMsg entry.1 causing)
  | NodeError.handlerError e => mkDeployError (plan.getItem entry.1).groupKey e.message

/-- The progress event the catch block reports for one walker handler error
entry, when any. -/
def catchEventOf (plan : Plan) (entry : PlanItemId × NodeError) : Option Event :=
  match entry.2 with
  | NodeError.nodeSkipped causing =>
    some (Event.progress entry.1 ItemStatus.cancelled (some (plan.getItem causing).groupKey))
  | NodeError.handlerError _ => none

/-- Translation of the `catch` block of `deployActions` (deploy_actions.ts lines
138 to 158): every caught error returns a normal result carrying the accumulated
applied changes and deployment URLs; a `WalkError` is translated entry by entry
into deploy errors (reporting `cancelled` progress for skipped nodes and
translating a circular dependency error into one error per participating node);
any other error yields an empty error list. -/
def deployActionsCatch (plan : Plan) (st : DeployState) (error : WalkFailure) :
    DeployState × Except JsErr DeployActionResult :=
  match error with
  | .other _ => (st, .ok (mkDeployActionResult [] st))
  | .walkError we =>
    let stErrs := we.handlerErrors.foldl (catchStep plan) (st, [])
    let stErrs2 :=
      match we.circularDependencyError with
      | some circ =>
        circ.causingNodeIds.foldl
          (fun (acc : DeployState × List DeployError) nodeId =>
            (pushEvent acc.1 (Event.progress nodeId ItemStatus.error (some circ.message)),
              acc.2 ++ [mkDeployError (plan.getItem nodeId).groupKey circ.message]))
          stErrs
      | none => stErrs
    (stErrs2.1, .ok (mkDeployActionResult stErrs2.2 stErrs2.1))

/-- Translation of `deployActions` (deploy_actions.ts lines 97 to 160): walk the
plan with the per-node handler; on success return the accumulated applied changes
and deployment URLs with no errors; on a walker aggregate run the catch block.
The result is an `Except` so that "the call throws" is representable; the catch
block never rethrows, so every path returns `Except.ok`. -/
def deployActions (plan : Plan) (adapters : String → Option AdapterOperations)
    (post : List Change → Option JsErr) (checkOnly : Bool) :
    DeployState × Except JsErr DeployActionResult :=
  match walkAsync plan (planHandler plan adapters post checkOnly) initialDeployState with
  | (st, none) => (st, .ok (mkDeployActionResult [] st))
  | (st, some we) => deployActionsCatch plan st (.walkError we)

theorem catchStep_foldl_spec (plan : Plan) (entries : List (PlanItemId × NodeError))
    (st : DeployState) (errs0 : List DeployError) :
    ((entries.foldl (catchStep plan) (st, errs0)).1.appliedChanges = st.appliedChanges)
    ∧ ((entries.foldl (catchStep plan) (st, errs0)).1.deploymentUrls = st.deploymentUrls)
    ∧ ((entries.foldl (catchStep plan) (st, errs0)).1.events =
        st.events ++ entries.filterMap (catchEventOf plan))
    ∧ ((entries.foldl (catchStep plan) (st, errs0)).2 =
        errs0 ++ entries.map (catchErrOf plan)) := by
  induction entries generalizing st errs0 with
  | nil => exact ⟨rfl, rfl, by simp, by simp⟩
  | cons entry rest ih =>
    rcases entry with ⟨k, ne⟩
    cases ne with
    | nodeSkipped causing =>
      rcases ih (pushEvent st (Event.progress k ItemStatus.cancelled
          (some (plan.getItem causing).groupKey)))
        (errs0 ++ [mkDeployError (plan.getItem k).groupKey (skippedMsg k causing)]) with
        ⟨h1, h2, h3, h4⟩
      refine ⟨?_, ?_, ?_, ?_⟩
      · rw [List.foldl_cons]
        exact h1
      · rw [List.foldl_cons]
        exact h2
      · rw [List.foldl_cons]
        rw [show catchStep plan (st, errs0) (k, NodeError.nodeSkipped causing) =
          (pushEvent st (Event.progress k ItemStatus.cancelled
              (some (plan.getItem causing).groupKey)),
            errs0 ++ [mkDeployError (plan.getItem k).groupKey (skippedMsg k causing)])
          from rfl]
        rw [h3]
        simp [pushEvent, catchEventOf, List.append_assoc]
      · rw [List.foldl_cons]
        rw [show catchStep plan (st, errs0) (k, NodeError.nodeSkipped causing) =
          (pushEvent st (Event.progress k ItemStatus.cancelled
              (some (plan.getItem causing).groupKey)),
            errs0 ++ [mkDeployError (plan.getItem k).groupKey (skippedMsg k causing)])
          from rfl]
        rw [h4]
        simp [catchErrOf, List.append_assoc]
    | handlerError e =>
      rcases ih st (errs0 ++ [mkDeployError (plan.getItem k).groupKey e.message]) with
        ⟨h1, h2, h3, h4⟩
      refine ⟨?_, ?_, ?_, ?_⟩
      · rw [List.foldl_cons]
        exact h1
      · rw [List.foldl_cons]
        exact h2
      · rw [List.foldl_cons]
        rw [show catchStep plan (st, errs0) (k, NodeError.handlerError e) =
          (st, errs0 ++ [mkDeployError (plan.getItem k).groupKey e.message]) from rfl]
        rw [h3]
        simp [catchEventOf]
      · rw [List.foldl_cons]
        rw [show catchStep plan (st, errs0) (k, NodeError.handlerError e) =
          (st, errs0 ++ [mkDeployError (plan.getItem k).groupKey e.message]) from rfl]
        rw [h4]
        simp [catchErrOf, List.append_assoc]

theorem deployActionsCatch_walkError_spec (plan : Plan) (st : DeployState)
    (we : WalkError) (hcirc : we.circularDependencyError = none) :
    ∃ st2, deployActionsCatch plan st (.walkError we) =
        (st2, .ok (mkDeployActionResult (we.handlerErrors.map (catchErrOf plan)) st2))
      ∧ st2.appliedChanges = st.appliedChanges
      ∧ st2.deploymentUrls = st.deploymentUrls
      ∧ st2.events = st.events ++ we.handlerErrors.filterMap (catchEventOf plan) := by
  rcases catchStep_foldl_spec plan we.handlerErrors st [] with ⟨h1, h2, h3, h4⟩
  refine ⟨(we.handlerErrors.foldl (catchStep plan) (st, [])).1, ?_, h1, h2, h3⟩
  rw [deployActionsCatch, hcirc]
  rw [show (mkDeployActionResult (we.handlerErrors.map (catchErrOf plan))
      (we.handlerErrors.foldl (catchStep plan) (st, [])).1) =
    (mkDeployActionResult (we.handlerErrors.foldl (catchStep plan) (st, [])).2
      (we.handlerErrors.foldl (catchStep plan) (st, [])).1) from by rw [h4]; rfl]

theorem walkAsync_some (plan : Plan)
    (handler : PlanItemId → DeployState → DeployState × Option JsErr)
    (st0 st : DeployState) (we : WalkError)
    (h : walkAsync plan handler st0 = (st, some we)) :
    we.circularDependencyError = none
    ∧ we.handlerErrors = (plan.nodes.foldl (walkStep plan handler) (st0, [])).2
    ∧ st = (plan.nodes.foldl (walkStep plan handler) (st0, [])).1 := by
  rw [walkAsync] at h
  by_cases hemp : (plan.nodes.foldl (walkStep plan handler) (st0, [])).2.isEmpty
  · rw [if_pos hemp] at h
    injection h with h1 h2
    exact absurd h2 (by simp)
  · rw [if_neg hemp] at h
    injection h with h1 h2
    injection h2 with h2
    rw [← h2]
    exact ⟨rfl, rfl, h1.symm⟩

/-- C6: for every node the walker skipped, `deployActions` reports `cancelled`
progress for that item with details equal to the causing node group key, and its
error list holds exactly one deploy error per walker entry — the skipped entry
contributing exactly the error that the item was not deployed because it depends
on the named causing node which failed to deploy. -/
theorem deployActions_reports_skipped (plan : Plan)
    (adapters : String → Option AdapterOperations) (post : List Change → Option JsErr)
    (checkOnly : Bool) (stW : DeployState) (we : WalkError) (k c : PlanItemId)
    (hwalk : walkAsync plan (planHandler plan adapters post checkOnly)
      initialDeployState = (stW, some we))
    (hmem : (k, NodeError.nodeSkipped c) ∈ we.handlerErrors) :
    Event.progress k ItemStatus.cancelled (some (plan.getItem c).groupKey) ∈
        (deployActions plan adapters post checkOnly).1.events
    ∧ ∃ r, (deployActions plan adapters post checkOnly).2 = .ok r
      ∧ r.errors = we.handlerErrors.map (catchErrOf plan)
      ∧ catchErrOf plan (k, NodeError.nodeSkipped c) =
          mkDeployError (plan.getItem k).groupKey (skippedMsg k c) := by
  have hcirc := (walkAsync_some plan _ initialDeployState stW we hwalk).1
  rcases deployActionsCatch_walkError_spec plan stW we hcirc with ⟨st2, heq, happ, hurl, hev⟩
  have hda : deployActions plan adapters post checkOnly =
      deployActionsCatch plan stW (.walkError we) := by
    rw [deployActions, hwalk]
  rw [hda, heq]
  constructor
  · show Event.progress k ItemStatus.cancelled (some (plan.getItem c).groupKey) ∈ st2.events
    rw [hev]
    refine List.mem_append_right _ ?_
    exact List.mem_filterMap.mpr ⟨(k, NodeError.nodeSkipped c), hmem, rfl⟩
  · exact ⟨mkDeployActionResult (we.handlerErrors.map (catchErrOf plan)) st2, rfl, rfl, rfl⟩

/-- C4: whenever `deployActions` returns a non-success result (a non-empty error
list), the returned result still carries every applied change and every
deployment URL accumulated in the run-wide state before the failure: partial
progress is returned, not discarded. -/
theorem deployActions_keeps_progress (plan : Plan)
    (adapters : String → Option AdapterOperations) (post : List Change → Option JsErr)
    (checkOnly : Bool) (r : DeployActionResult)
    (hres : (deployActions plan adapters post checkOnly).2 = .ok r)
    (herr : r.errors ≠ []) :
    r.appliedChanges = (deployActions plan adapters post checkOnly).1.appliedChanges
    ∧ r.extraProperties.deploymentUrls =
        (deployActions plan adapters post checkOnly).1.deploymentUrls := by
  rcases hw : walkAsync plan (planHandler plan adapters post checkOnly) initialDeployState
    with ⟨st, oe⟩
  cases oe with
  | none =>
    have hda : deployActions plan adapters post checkOnly =
        (st, .ok (mkDeployActionResult [] st)) := by
      rw [deployActions, hw]
    rw [hda] at hres
    have hres2 : Except.ok (ε := JsErr) (mkDeployActionResult [] st) = Except.ok r := hres
    injection hres2 with hres2
    rw [← hres2] at herr
    exact absurd rfl herr
  | some we =>
    have hcirc := (walkAsync_some plan _ initialDeployState st we hw).1
    rcases deployActionsCatch_walkError_spec plan st we hcirc with ⟨st2, heq, happ, hurl, hev⟩
    have hda : deployActions plan adapters post checkOnly =
        deployActionsCatch plan st (.walkError we) := by
      rw [deployActions, hw]
    rw [hda, heq] at hres ⊢
    have hres2 : Except.ok (ε := JsErr)
        (mkDeployActionResult (we.handlerErrors.map (catchErrOf plan)) st2) =
      Except.ok r := hres
    injection hres2 with hres2
    rw [← hres2]
    exact ⟨rfl, rfl⟩

/-- C3 (amended): `deployActions` never throws.  Every walk outcome, the walker
aggregate included, is converted into a normally returned result; and even an
error that is not a walker aggregate is caught by the catch block, which then
returns the accumulated partial progress with an empty error list rather than
rethrowing. -/
theorem deployActions_never_throws :
    (∀ (plan : Plan) (adapters : String → Option AdapterOperations)
      (post : List Change → Option JsErr) (checkOnly : Bool),
      ∃ r, (deployActions plan adapters post checkOnly).2 = .ok r)
    ∧ (∀ (plan : Plan) (st : DeployState) (we : WalkError),
      ∃ r, (deployActionsCatch plan st (.walkError we)).2 = .ok r)
    ∧ (∀ (plan : Plan) (st : DeployState) (e : JsErr),
      deployActionsCatch plan st (.other e) = (st, .ok (mkDeployActionResult [] st))) := by
  refine ⟨?_, ?_, fun plan st e => rfl⟩
  · intro plan adapters post checkOnly
    rcases hw : walkAsync plan (planHandler plan adapters post checkOnly) initialDeployState
      with ⟨st, oe⟩
    cases oe with
    | none =>
      refine ⟨mkDeployActionResult [] st, ?_⟩
      rw [deployActions, hw]
    | some we =>
      have hda : deployActions plan adapters post checkOnly =
          deployActionsCatch plan st (.walkError we) := by
        rw [deployActions, hw]
      rw [hda]
      exact ⟨_, rfl⟩
  · intro plan st we
    exact ⟨_, rfl⟩

def exMissingElem : Element :=
  { elemID := { adapter := "missing", typeName := "Widget" }, value := [] }

def exItemMissing : PlanItem :=
  { groupKey := "missing.group", changes := [Change.addition exMissingElem] }

def exPlanChain : Plan :=
  { nodes := [0, 1],
    deps := fun n => if n = 1 then [0] else [],
    getItem := fun n => if n = 0 then exItemMissing else exItem }

def exNoAdapters : String → Option AdapterOperations := fun _ => none

def exWalkState : DeployState :=
  { appliedChanges := [], deploymentUrls := [], planUpdates := [],
    events := [Event.progress 0 ItemStatus.started none,
      Event.progress 0 ItemStatus.error (some "Missing adapter for missing")] }

def exWalkError : WalkError :=
  { handlerErrors := [(0, NodeError.handlerError (JsErr.thrown "Missing adapter for missing")),
      (1, NodeError.nodeSkipped 0)],
    circularDependencyError := none }

/-- Witness for C6 on a concrete two-node chain whose first node fails on a
missing adapter, so the second node is skipped. -/
theorem deployActions_reports_skipped_witness :
    Event.progress 1 ItemStatus.cancelled (some (exPlanChain.getItem 0).groupKey) ∈
        (deployActions exPlanChain exNoAdapters (fun _ => none) false).1.events
    ∧ ∃ r, (deployActions exPlanChain exNoAdapters (fun _ => none) false).2 = .ok r
      ∧ r.errors = exWalkError.handlerErrors.map (catchErrOf exPlanChain)
      ∧ catchErrOf exPlanChain (1, NodeError.nodeSkipped 0) =
          mkDeployError (exPlanChain.getItem 1).groupKey (skippedMsg 1 0) :=
  deployActions_reports_skipped exPlanChain exNoAdapters (fun _ => none) false
    exWalkState exWalkError 1 0 (by decide) (by decide)

def exPlanSingle : Plan :=
  { nodes := [0], deps := fun _ => [], getItem := fun _ => exItem }

def exPartialResult : DeployActionResult :=
  { errors := [mkDeployError "salesforce.Lead.group"
      (groupFailMsg false "salesforce.Lead.group" ["partial failure"])],
    appliedChanges := [Change.modification exBase exAfter],
    extraProperties := { deploymentUrls := ["https://example.invalid/deploy/1"] } }

/-- Witness for C4 on a concrete single-node plan whose adapter result partially
applies and reports an error. -/
theorem deployActions_keeps_progress_witness :
    exPartialResult.appliedChanges =
        (deployActions exPlanSingle exAdapters (fun _ => none) false).1.appliedChanges
    ∧ exPartialResult.extraProperties.deploymentUrls =
        (deployActions exPlanSingle exAdapters (fun _ => none) false).1.deploymentUrls :=
  deployActions_keeps_progress exPlanSingle exAdapters (fun _ => none) false
    exPartialResult rfl (by decide)

/-- Counterexample to C3 as stated: an error that is not a walker aggregate does
not propagate out of `deployActions` — the catch block catches it and returns a
normal result with an empty error list. -/
theorem deployActions_unexpected_error_swallowed :
    (deployActionsCatch exPlanSingle initialDeployState
        (.other (JsErr.thrown "unexpected walker bug"))).2 ≠
      .error (JsErr.thrown "unexpected walker bug")
    ∧ (deployActionsCatch exPlanSingle initialDeployState
        (.other (JsErr.thrown "unexpected walker bug"))).2 =
      .ok (mkDeployActionResult [] initialDeployState) := by
  constructor
  · intro h
    have h2 : Except.ok (ε := JsErr) (mkDeployActionResult [] initialDeployState) =
        Except.error (JsErr.thrown "unexpected walker bug") := h
    exact Except.noConfusion h2
  · rfl
